import Mathlib

/-!
Shallow embedding of the CDNLinker plugin (`main.js` of cdn-enabler-publii).

JavaScript strings are modelled as `List Char` (with `String` at the API
boundary, converted via `String.data` / `String.mk`).  The two content
modifiers `modifyHtml` and `modifyFeeds` and their helpers are translated
from the source; the regular expressions appearing in the source are small
and fixed, so each one is translated into an explicit executable matcher
with the exact semantics the JS regex engine gives it (unanchored search,
ordered alternation, greedy quantifiers, `.` not matching line terminators,
`$`-substitution in string replacements).
-/

/-- Characters matched by `\s` in a JavaScript regular expression, which is
also the character class trimmed by `String.prototype.trim`. -/
def isJsWs (c : Char) : Bool :=
  c.val = 0x20 || c.val = 0x09 || c.val = 0x0a || c.val = 0x0b || c.val = 0x0c ||
  c.val = 0x0d || c.val = 0xa0 || c.val = 0x1680 ||
  (0x2000 ≤ c.val && c.val ≤ 0x200a) ||
  c.val = 0x2028 || c.val = 0x2029 || c.val = 0x202f || c.val = 0x205f ||
  c.val = 0x3000 || c.val = 0xfeff

/-- Line terminators, which `.` in a JavaScript regex does not match. -/
def isLineTerm (c : Char) : Bool :=
  c.val = 0x0a || c.val = 0x0d || c.val = 0x2028 || c.val = 0x2029

/-- The single-quote character `'` (code point 39). -/
def squote : Char := Char.ofNat 39

/-- The backtick character (code point 96). -/
def btick : Char := Char.ofNat 96

/-- Quote characters recognised by the attribute regex character class. -/
def isQuote (c : Char) : Bool := c = '"' || c = squote

/-- Substring test: `pat` occurs somewhere in the list (JS unanchored
literal-pattern `RegExp.test` / `String.includes`). -/
def containsSub (pat : List Char) : List Char → Bool
  | [] => pat.isEmpty
  | c :: rest => pat.isPrefixOf (c :: rest) || containsSub pat rest

/-- JS `value.split(',')` on a character list. -/
def splitOnComma : List Char → List (List Char)
  | [] => [[]]
  | c :: rest =>
    if c = ',' then [] :: splitOnComma rest
    else
      match splitOnComma rest with
      | g :: gs => (c :: g) :: gs
      | [] => [[c]]

/-- Accumulator-based worker for `wsWords`; `acc` holds the current word
reversed. -/
def wsWordsAux : List Char → List Char → List (List Char)
  | acc, [] => if acc.isEmpty then [] else [acc.reverse]
  | acc, c :: cs =>
    if isJsWs c then
      if acc.isEmpty then wsWordsAux [] cs else acc.reverse :: wsWordsAux [] cs
    else wsWordsAux (c :: acc) cs

/-- Maximal whitespace-free words of a list, in order (no empty words). -/
def wsWords (cs : List Char) : List (List Char) := wsWordsAux [] cs

/-- JS `String.prototype.trim`. -/
def jsTrim (cs : List Char) : List Char :=
  ((cs.dropWhile isJsWs).reverse.dropWhile isJsWs).reverse

/-- JS `str.split(/\s+/)`: words separated by whitespace runs, with an empty
leading (resp. trailing) entry when the string starts (resp. ends) with
whitespace, and `[""]` for the empty string. -/
def jsSplitWs (cs : List Char) : List (List Char) :=
  match cs with
  | [] => [[]]
  | c :: _ =>
    let base := wsWords cs
    let withLead := if isJsWs c then [] :: base else base
    match cs.reverse with
    | [] => withLead
    | d :: _ => if isJsWs d then withLead ++ [[]] else withLead

/-- Plugin configuration (`this.config`).  An absent `cdnUrl` is modelled as
the empty string; both are falsy in the source's guards. -/
structure Config where
  cdnUrl : String
  enableImages : Bool
  enableCss : Bool
  enableJs : Bool
  enableFonts : Bool
  enableJsonFeed : Bool
  enableXmlFeed : Bool
  enableSitemap : Bool

/-- Renderer context handed to the modifiers.  `siteUrl` models
`renderer.site && renderer.site.url`: `none` when the site object or its
`url` field is absent. -/
structure Renderer where
  context : String
  file : String
  siteUrl : Option String

/-- Extension tokens collected from the configuration (source lines 73-76). -/
def assetExtensions (cfg : Config) : List String :=
  (if cfg.enableCss then ["css"] else []) ++
  (if cfg.enableJs then ["js"] else []) ++
  (if cfg.enableFonts then ["woff", "woff2", "ttf", "otf", "eot", "svg"] else [])

/-- One disjunct of the combined asset matcher built by `modifyHtml`. -/
inductive AssetPattern where
  | media : AssetPattern
  | assetExt : List String → AssetPattern
  | feedJson : AssetPattern
  | feedXml : AssetPattern

/-- Pattern list pushed by `modifyHtml` (source lines 63-89), in push order. -/
def finalPatterns (cfg : Config) : List AssetPattern :=
  (if cfg.enableImages then [AssetPattern.media] else []) ++
  (if (assetExtensions cfg).length > 0 then [AssetPattern.assetExt (assetExtensions cfg)] else []) ++
  (if cfg.enableJsonFeed then [AssetPattern.feedJson] else []) ++
  (if cfg.enableXmlFeed then [AssetPattern.feedXml] else [])

/-- Search, after an `/assets/` or `/themes/` occurrence, for a literal `.`
followed by one of the extension tokens, crossing only non-line-terminator
characters (the `.*\.(?:exts)` part of the asset regex under `test`). -/
def dotExtSearch (exts : List String) : List Char → Bool
  | [] => false
  | c :: cs =>
    (c = '.' && exts.any (fun e => e.data.isPrefixOf cs)) ||
    (!isLineTerm c && dotExtSearch exts cs)

/-- Unanchored test of the asset-extension fragment
`(?:\/assets\/|\/themes\/).*\.(?:exts)(?:\?[^"']*)?` (the optional query
group can always match empty, so it is irrelevant to `test`). -/
def assetDirExtTest (exts : List String) : List Char → Bool
  | [] => false
  | c :: rest =>
    (("/assets/".data.isPrefixOf (c :: rest) || "/themes/".data.isPrefixOf (c :: rest)) &&
      dotExtSearch exts ((c :: rest).drop 8)) ||
    assetDirExtTest exts rest

/-- Unanchored `test` of a single pattern fragment against a URL. -/
def patternTest : AssetPattern → List Char → Bool
  | AssetPattern.media, url => containsSub "/media/".data url
  | AssetPattern.assetExt exts, url => assetDirExtTest exts url
  | AssetPattern.feedJson, url => containsSub "feed.json".data url
  | AssetPattern.feedXml, url => containsSub "feed.xml".data url

/-- `assetUrlTestRegex.test(url)`: the fragments are joined with `|`, and an
unanchored test of an alternation succeeds iff some fragment matches. -/
def assetUrlTest (cfg : Config) (url : List Char) : Bool :=
  (finalPatterns cfg).any (fun p => patternTest p url)

/-- Strip one leading `http://`, `https://` or `//` — the
`.replace(/^(?:https?:)?\/\//, '')` step. -/
def stripSchemeSlashes (s : List Char) : List Char :=
  if "https://".data.isPrefixOf s then s.drop 8
  else if "http://".data.isPrefixOf s then s.drop 7
  else if "//".data.isPrefixOf s then s.drop 2
  else s

/-- Strip one trailing `/` — the `.replace(/\/$/, '')` step. -/
def stripTrailingSlash (s : List Char) : List Char :=
  match s.getLast? with
  | some c => if c = '/' then s.dropLast else s
  | none => s

/-- The `cleanCdnDomain` computation (source lines 141 and 168). -/
def cleanCdnDomain (cdnUrl : String) : List Char :=
  stripTrailingSlash (stripSchemeSlashes cdnUrl.data)

/-- Protocol chosen by `replaceDomainAndPreserveProtocol` (source lines
188-191): `https://` by default, switched only for an explicit `http://`. -/
def protocolFor (url : List Char) : List Char :=
  if "https://".data.isPrefixOf url then "https://".data
  else if "http://".data.isPrefixOf url then "http://".data
  else "https://".data

/-- Attempt of the bare `(\/.+)` group at the head of the list: a literal
`/` followed by a greedy run of at least one non-line-terminator character;
returns the capture. -/
def tryPathPlain : List Char → Option (List Char)
  | [] => none
  | c :: rest =>
    if c = '/' then
      let body := rest.takeWhile (fun x => !isLineTerm x)
      if body.isEmpty then none else some ('/' :: body)
    else none

/-- Attempt of `(?:https?:\/\/[^/]+)?(\/.+)` at the head of the list.  The
greedy optional group is tried first; `[^/]+` greedily eats the host (the
run up to the first `/`), and if the capture then fails no shorter host can
succeed, so the engine retries without the optional group. -/
def tryPathAt (cs : List Char) : Option (List Char) :=
  let schemeLen : Option Nat :=
    if "https://".data.isPrefixOf cs then some 8
    else if "http://".data.isPrefixOf cs then some 7
    else none
  match schemeLen with
  | some n =>
    let afterScheme := cs.drop n
    let host := afterScheme.takeWhile (fun c => !(c = '/'))
    if host.isEmpty then tryPathPlain cs
    else
      match tryPathPlain (afterScheme.drop host.length) with
      | some cap => some cap
      | none => tryPathPlain cs
  | none => tryPathPlain cs

/-- `url.match(pathRegex)` for `pathRegex = /(?:https?:\/\/[^/]+)?(\/.+)/`:
unanchored leftmost match, returning the first capture group. -/
def jsPathMatch : List Char → Option (List Char)
  | [] => none
  | c :: cs =>
    match tryPathAt (c :: cs) with
    | some cap => some cap
    | none => jsPathMatch cs

/-- The inner URL replacer of `performReplacement` (source lines 182-203). -/
def replaceDomainAndPreserveProtocol (cfg : Config) (url : List Char) : List Char :=
  if ((!("http".data.isPrefixOf url)) && (!("/".data.isPrefixOf url))) ||
      !(assetUrlTest cfg url) then url
  else
    match jsPathMatch url with
    | some fullPath => protocolFor url ++ cleanCdnDomain cfg.cdnUrl ++ fullPath
    | none => url

/-- Processing of one comma-separated `srcset` entry (source lines 213-217):
trim, split on whitespace runs, rewrite the leading URL token, rejoin with a
single space. -/
def srcsetEntry (cfg : Config) (part : List Char) : List Char :=
  let trimmedPart := jsTrim part
  match jsSplitWs trimmedPart with
  | [] => []
  | url :: descriptors =>
    List.intercalate [' '] (replaceDomainAndPreserveProtocol cfg url :: descriptors)

/-- Processing of a whole `srcset` value: split on commas, process each
entry, rejoin with `", "`. -/
def srcsetRewrite (cfg : Config) (value : List Char) : List Char :=
  List.intercalate ", ".data ((splitOnComma value).map (srcsetEntry cfg))

/-- The replacement callback passed to `content.replace(attributeRegex, ...)`
(source lines 207-224): rewrites the value and reassembles the attribute,
always with double quotes. -/
def attrCallback (cfg : Config) (attr : String) (value : List Char) : List Char :=
  let newValue :=
    if attr = "srcset" then srcsetRewrite cfg value
    else replaceDomainAndPreserveProtocol cfg value
  attr.data ++ '=' :: '"' :: (newValue ++ ['"'])

/-- Attempt of `["']([^"']+)["']` at the head of the list: an opening quote,
a greedy nonempty run of non-quote characters, and a closing quote (either
kind, not necessarily matching the opening one). -/
def tryAttrValue (cs : List Char) : Option (List Char × List Char) :=
  match cs with
  | [] => none
  | q :: rest =>
    if isQuote q then
      let v := rest.takeWhile (fun c => !isQuote c)
      let rest2 := rest.drop v.length
      if v.isEmpty then none
      else
        match rest2 with
        | q2 :: rest3 => if isQuote q2 then some (v, rest3) else none
        | [] => none
    else none

/-- Attempt of the whole `attributeRegex = /(src|href|srcset)=["']([^"']+)["']/`
at the head of the list.  The alternation is tried in order; an alternative
that matches the name but not the following `=` cannot be rescued by a later
alternative, so testing `name=` as a prefix is exact. -/
def matchAttrAt (cs : List Char) : Option (String × List Char × List Char) :=
  match ["src", "href", "srcset"].find? (fun a => (a ++ "=").data.isPrefixOf cs) with
  | some a =>
    match tryAttrValue (cs.drop (a.length + 1)) with
    | some (v, rest) => some (a, v, rest)
    | none => none
  | none => none

/-- Global-replace scan of `content.replace(attributeRegex, callback)`:
leftmost matches, non-overlapping, unmatched characters copied verbatim.
The fuel argument is initialised with the list length, which always
suffices because every step consumes at least one character. -/
def scanAttrs (cfg : Config) : Nat → List Char → List Char
  | 0, cs => cs
  | _ + 1, [] => []
  | fuel + 1, c :: cs =>
    match matchAttrAt (c :: cs) with
    | some (a, v, rest) => attrCallback cfg a v ++ scanAttrs cfg fuel rest
    | none => c :: scanAttrs cfg fuel cs

/-- `performReplacement` (source lines 166-225) on a character list. -/
def performReplacement (cfg : Config) (content : List Char) : List Char :=
  scanAttrs cfg content.length content

/-- `modifyHtml` (source lines 55-107). -/
def modifyHtml (cfg : Config) (renderer : Renderer) (htmlCode : String) : String :=
  if (!((renderer.context != "preview") && (renderer.context != "instant-preview"))) ||
      (cfg.cdnUrl == "") then htmlCode
  else if (finalPatterns cfg).isEmpty then htmlCode
  else String.mk (performReplacement cfg htmlCode.data)

/-- GetSubstitution semantics of a JS string replacement: `$$` inserts `$`,
`$&` the matched text, a `$`-backtick the text before the match, `$'` the
text after; our pattern has no capture groups, so `$` followed by anything
else (digits included) is literal. -/
def applyDollar (pre m post : List Char) : List Char → List Char
  | [] => []
  | c :: rest =>
    if c = '$' then
      match rest with
      | [] => ['$']
      | d :: rest2 =>
        if d = '$' then '$' :: applyDollar pre m post rest2
        else if d = '&' then m ++ applyDollar pre m post rest2
        else if d = btick then pre ++ applyDollar pre m post rest2
        else if d = squote then post ++ applyDollar pre m post rest2
        else '$' :: applyDollar pre m post (d :: rest2)
    else c :: applyDollar pre m post rest

/-- Worker for `jsReplaceGlobal`; `pre` is the already-consumed part of the
subject (needed by `$`-backtick), fuel starts at the subject length. -/
def jsReplaceGlobalGo (pat repl : List Char) : Nat → List Char → List Char → List Char
  | 0, _, cs => cs
  | _ + 1, _, [] => []
  | fuel + 1, pre, c :: cs =>
    if pat.isPrefixOf (c :: cs) && !pat.isEmpty then
      applyDollar pre pat ((c :: cs).drop pat.length) repl ++
        jsReplaceGlobalGo pat repl fuel (pre ++ pat) ((c :: cs).drop pat.length)
    else c :: jsReplaceGlobalGo pat repl fuel (pre ++ [c]) cs

/-- JS `subject.replace(new RegExp(escapedPat, 'g'), repl)` where the
pattern is a regex-escaped literal and `repl` is a string (so it is subject
to `$`-substitution). -/
def jsReplaceGlobal (pat repl s : List Char) : List Char :=
  jsReplaceGlobalGo pat repl s.length [] s

/-- JS `s.endsWith(suf)`. -/
def jsEndsWith (s suf : String) : Bool := suf.data.isSuffixOf s.data

/-- `modifyFeeds` (source lines 121-150). -/
def modifyFeeds (cfg : Config) (renderer : Renderer) (content : String) : String :=
  let isDeploy := (renderer.context != "preview") && (renderer.context != "instant-preview")
  let siteOk := match renderer.siteUrl with
    | none => false
    | some u => u != ""
  if (!isDeploy) || (cfg.cdnUrl == "") || (!siteOk) then content
  else
    let shouldModify :=
      (jsEndsWith renderer.file "feed.xml" && cfg.enableXmlFeed) ||
      (jsEndsWith renderer.file "feed.json" && cfg.enableJsonFeed) ||
      (jsEndsWith renderer.file "sitemap.xml" && cfg.enableSitemap)
    if !shouldModify then content
    else
      let siteUrl := stripTrailingSlash ((renderer.siteUrl.getD "").data)
      let cdnDom := cleanCdnDomain cfg.cdnUrl
      let protocol := if "https://".data.isPrefixOf siteUrl then "https://".data else "http://".data
      let cdnUrlWithProtocol := protocol ++ cdnDom
      String.mk (jsReplaceGlobal (siteUrl ++ "/media/".data)
        (cdnUrlWithProtocol ++ "/media/".data) content.data)

/-- Configuration with images enabled and CDN URL `cdn.example.com`. -/
def cfgImages : Config := ⟨"cdn.example.com", true, false, false, false, false, false, false⟩

/-- Configuration with only JavaScript assets enabled. -/
def cfgJs : Config := ⟨"cdn.example.com", false, false, true, false, false, false, false⟩

/-- Configuration with only the JSON-feed filename pattern enabled. -/
def cfgJsonPat : Config := ⟨"cdn.example.com", false, false, false, false, true, false, false⟩

/-- Configuration with only the XML-feed output toggle enabled. -/
def cfgXml : Config := ⟨"cdn.example.com", false, false, false, false, false, true, false⟩

/-- Configuration whose CDN URL contains the replacement-pattern `$&`. -/
def cfgDollar : Config := ⟨"$&", false, false, false, false, false, true, false⟩

/-- Deployment renderer context for an HTML page. -/
def rDeploy : Renderer := ⟨"deploy", "index.html", some "https://site.example"⟩

/-- Deployment renderer context for `feed.xml` on an `https` site. -/
def rFeed : Renderer := ⟨"deploy", "feed.xml", some "https://site.example"⟩

/-- Deployment renderer context for `feed.xml` on the `http` site `http://s`. -/
def rFeedHttp : Renderer := ⟨"deploy", "feed.xml", some "http://s"⟩

/-- Renderer context whose mode is neither `deploy` nor a preview mode. -/
def rStaging : Renderer := ⟨"staging", "index.html", some "https://site.example"⟩

/-- HTML input whose `href` attribute is single-quoted: `<a href='mailto:x@y'>`. -/
def singleQuoteInput : String :=
  String.mk ("<a href=".data ++ squote :: "mailto:x@y".data ++ squote :: ">".data)

/-- Test for a `/` followed by at least one non-line-terminator character
somewhere in the list — the exact condition under which the unanchored
`pathRegex` of the source finds a match. -/
def hasPathSlash : List Char → Bool
  | [] => false
  | [_] => false
  | c :: d :: rest => (c = '/' && !isLineTerm d) || hasPathSlash (d :: rest)

/-- Test for a `/` followed by at least one character somewhere in the
list. -/
def hasSlashThenChar : List Char → Bool
  | [] => false
  | [_] => false
  | c :: d :: rest => (c = '/') || hasSlashThenChar (d :: rest)

/-- Modelled from the claim's wording for C10: the remainder of a URL after
stripping an optional `scheme://host` prefix. -/
def stripSchemeHostSpec (cs : List Char) : List Char :=
  if "https://".data.isPrefixOf cs then (cs.drop 8).dropWhile (fun c => !(c = '/'))
  else if "http://".data.isPrefixOf cs then (cs.drop 7).dropWhile (fun c => !(c = '/'))
  else cs

/-- Modelled from the spec (§4.2 step 4) for C4: one comma-separated
`srcset` entry — split the entry into its whitespace-separated tokens,
treat the first as the URL token and rewrite only it, keep every descriptor
token unchanged, rejoin with single spaces (an entry with no tokens has the
empty URL token). -/
def srcsetSpecEntry (cfg : Config) (entry : List Char) : List Char :=
  match wsWords entry with
  | [] => replaceDomainAndPreserveProtocol cfg []
  | url :: descriptors =>
    List.intercalate [' '] (replaceDomainAndPreserveProtocol cfg url :: descriptors)

/-- Modelled from the spec for C4: the whole `srcset` value — split on
commas, process each entry, rejoin entries with `", "`. -/
def srcsetSpecRewrite (cfg : Config) (value : List Char) : List Char :=
  List.intercalate ", ".data ((splitOnComma value).map (srcsetSpecEntry cfg))

/-- Modelled from the spec (§4.3 step 5) for C5: plain literal global
replacement — every occurrence of `pat` replaced by `repl` itself,
left-to-right and non-overlapping, with no `$`-substitution. -/
def literalReplaceGo (pat repl : List Char) : Nat → List Char → List Char
  | 0, cs => cs
  | _ + 1, [] => []
  | fuel + 1, c :: cs =>
    if pat.isPrefixOf (c :: cs) && !pat.isEmpty then
      repl ++ literalReplaceGo pat repl fuel ((c :: cs).drop pat.length)
    else c :: literalReplaceGo pat repl fuel cs

/-- Modelled from the spec for C5: entry point of the literal global
replacement. -/
def literalReplaceAll (pat repl s : List Char) : List Char :=
  literalReplaceGo pat repl s.length s

/-! ## Helper lemmas -/

theorem rd_skip_leading (cfg : Config) (url : List Char)
    (h1 : "http".data.isPrefixOf url = false) (h2 : "/".data.isPrefixOf url = false) :
    replaceDomainAndPreserveProtocol cfg url = url := by
  unfold replaceDomainAndPreserveProtocol
  rw [h1, h2]
  simp

theorem rd_skip_pattern (cfg : Config) (url : List Char)
    (h : assetUrlTest cfg url = false) :
    replaceDomainAndPreserveProtocol cfg url = url := by
  unfold replaceDomainAndPreserveProtocol
  rw [h]
  simp

theorem hasPathSlash_tail {c : Char} {cs : List Char}
    (h : hasPathSlash (c :: cs) = false) : hasPathSlash cs = false := by
  cases cs with
  | nil => rfl
  | cons d rest => exact (Bool.or_eq_false_iff.mp h).2

theorem hasPathSlash_drop (n : Nat) {cs : List Char} (h : hasPathSlash cs = false) :
    hasPathSlash (cs.drop n) = false := by
  induction n generalizing cs with
  | zero => exact h
  | succ n ih =>
    cases cs with
    | nil => exact h
    | cons c rest => exact ih (hasPathSlash_tail h)

theorem tryPathPlain_none {cs : List Char} (h : hasPathSlash cs = false) :
    tryPathPlain cs = none := by
  cases cs with
  | nil => rfl
  | cons c rest =>
    simp only [tryPathPlain]
    by_cases hc : c = '/'
    · rw [if_pos hc]
      cases rest with
      | nil => simp
      | cons d rest2 =>
        subst hc
        have hlt : isLineTerm d = true := by
          have h1 := (Bool.or_eq_false_iff.mp h).1
          simp at h1
          exact h1
        simp [hlt]
    · rw [if_neg hc]

theorem tryPathAt_none {cs : List Char} (h : hasPathSlash cs = false) :
    tryPathAt cs = none := by
  unfold tryPathAt
  have hdrop : ∀ m : Nat, tryPathPlain (cs.drop m) = none :=
    fun m => tryPathPlain_none (hasPathSlash_drop m h)
  have hp : tryPathPlain cs = none := tryPathPlain_none h
  by_cases h8 : "https://".data.isPrefixOf cs = true
  · simp [h8, hdrop, hp]
  · by_cases h7 : "http://".data.isPrefixOf cs = true
    · simp [h7, h8, hdrop, hp]
    · simp [h7, h8, hp]

theorem jsPathMatch_none {cs : List Char} (h : hasPathSlash cs = false) :
    jsPathMatch cs = none := by
  induction cs with
  | nil => rfl
  | cons c rest ih =>
    unfold jsPathMatch
    rw [tryPathAt_none h]
    exact ih (hasPathSlash_tail h)

/-! ## Claim theorems -/

/-- C1: if `cdnUrl` is empty/absent or the mode is `preview` or
`instant-preview`, both rewriters return the input unchanged; and if no
asset category toggle among the six used by the HTML pattern builder is
set, the HTML rewriter returns the input unchanged. -/
theorem c1_bypass_identity (cfg : Config) (r : Renderer) (x : String) :
    ((cfg.cdnUrl = "" ∨ r.context = "preview" ∨ r.context = "instant-preview") →
      modifyHtml cfg r x = x ∧ modifyFeeds cfg r x = x) ∧
    ((cfg.enableImages = false ∧ cfg.enableCss = false ∧ cfg.enableJs = false ∧
      cfg.enableFonts = false ∧ cfg.enableJsonFeed = false ∧ cfg.enableXmlFeed = false) →
      modifyHtml cfg r x = x) := by
  constructor
  · rintro (h | h | h) <;>
      exact ⟨by unfold modifyHtml; rw [h]; simp, by unfold modifyFeeds; rw [h]; simp⟩
  · rintro ⟨h1, h2, h3, h4, h5, h6⟩
    have hp : finalPatterns cfg = [] := by
      unfold finalPatterns assetExtensions
      rw [h1, h2, h3, h4, h5, h6]
      simp
    unfold modifyHtml
    rw [hp]
    simp

theorem c1_bypass_identity_witness :
    modifyHtml ⟨"", true, true, true, true, true, true, true⟩ rDeploy "<p>x</p>" = "<p>x</p>" ∧
    modifyFeeds ⟨"", true, true, true, true, true, true, true⟩ rDeploy "<p>x</p>" = "<p>x</p>" :=
  (c1_bypass_identity ⟨"", true, true, true, true, true, true, true⟩ rDeploy "<p>x</p>").1
    (Or.inl rfl)

/-- C2 (counterexample): with `cdnUrl = "cdn.example.com"` and
`enableImages = true`, the root-relative URL in `<img src="/media/a.jpg">`
is rewritten with the `https://` default, not the `http://` the claim
asserts. -/
theorem c2_counterexample :
    modifyHtml cfgImages rDeploy "<img src=\"/media/a.jpg\">" =
      "<img src=\"https://cdn.example.com/media/a.jpg\">" ∧
    modifyHtml cfgImages rDeploy "<img src=\"/media/a.jpg\">" ≠
      "<img src=\"http://cdn.example.com/media/a.jpg\">" := by
  exact ⟨by decide, by decide⟩

/-- C2 (amended): every URL the HTML rewriter rewrites is rebuilt with
protocol `https://` when the source URL begins with `https://`, `http://`
when it begins with `http://`, and the hardcoded default `https://`
otherwise (so root-relative URLs get `https://`); the `/media/` example
yields `https://cdn.example.com/media/a.jpg`, and the
`https://othercdn.com/assets/app.js` example is rewritten to
`https://cdn.example.com/assets/app.js` as claimed. -/
theorem c2_protocol_amended :
    (∀ (cfg : Config) (url : List Char),
      replaceDomainAndPreserveProtocol cfg url ≠ url →
      replaceDomainAndPreserveProtocol cfg url =
        protocolFor url ++
          (replaceDomainAndPreserveProtocol cfg url).drop (protocolFor url).length) ∧
    modifyHtml cfgImages rDeploy "<img src=\"/media/a.jpg\">" =
      "<img src=\"https://cdn.example.com/media/a.jpg\">" ∧
    modifyHtml cfgJs rDeploy "<a href=\"https://othercdn.com/assets/app.js\">" =
      "<a href=\"https://cdn.example.com/assets/app.js\">" := by
  refine ⟨?_, by decide, by decide⟩
  intro cfg url h
  unfold replaceDomainAndPreserveProtocol at h ⊢
  split at h
  · exact absurd rfl h
  · rename_i hgate
    cases hm : jsPathMatch url with
    | none => rw [hm] at h; exact absurd rfl h
    | some fp =>
      rw [if_neg hgate]
      show protocolFor url ++ cleanCdnDomain cfg.cdnUrl ++ fp =
        protocolFor url ++
          (protocolFor url ++ cleanCdnDomain cfg.cdnUrl ++ fp).drop (protocolFor url).length
      rw [List.append_assoc, List.drop_left]

theorem c2_protocol_amended_witness :
    replaceDomainAndPreserveProtocol cfgImages "/media/a.jpg".data =
      protocolFor "/media/a.jpg".data ++
        (replaceDomainAndPreserveProtocol cfgImages "/media/a.jpg".data).drop
          (protocolFor "/media/a.jpg".data).length :=
  c2_protocol_amended.1 cfgImages "/media/a.jpg".data (by decide)

/-- C3 (counterexample): a single-quoted attribute whose URL fails the
leading-character test is not emitted byte-for-byte: the quotes are
normalised to double quotes. -/
theorem c3_counterexample :
    modifyHtml cfgImages rDeploy singleQuoteInput = "<a href=\"mailto:x@y\">" ∧
    modifyHtml cfgImages rDeploy singleQuoteInput ≠ singleQuoteInput := by
  exact ⟨by decide, by decide⟩

/-- C3 (amended): for a matched `src`/`href` attribute whose URL fails the
leading-character test or the pattern test, the value itself is emitted
verbatim, but the attribute is reassembled as `attr="value"` with double
quotes regardless of the original quote characters. -/
theorem c3_verbatim_amended (cfg : Config) (attr : String) (value : List Char)
    (hA : attr ≠ "srcset")
    (hU : ("http".data.isPrefixOf value = false ∧ "/".data.isPrefixOf value = false) ∨
      assetUrlTest cfg value = false) :
    attrCallback cfg attr value = attr.data ++ '=' :: '"' :: (value ++ ['"']) := by
  unfold attrCallback
  rw [if_neg hA]
  rcases hU with ⟨h1, h2⟩ | h
  · rw [rd_skip_leading cfg value h1 h2]
  · rw [rd_skip_pattern cfg value h]

theorem c3_verbatim_amended_witness :
    attrCallback cfgImages "src" "mailto:a".data =
      "src".data ++ '=' :: '"' :: ("mailto:a".data ++ ['"']) :=
  c3_verbatim_amended cfgImages "src" "mailto:a".data (by decide)
    (Or.inl ⟨by decide, by decide⟩)

/-- C6: the feed rewriter passes the input through unchanged when the site
URL is absent or empty, and whenever the current file name / toggle
combination does not select it (any other file name, or a matching suffix
whose toggle is off). -/
theorem c6_feed_gates (cfg : Config) (r : Renderer) (content : String) :
    ((r.siteUrl = none ∨ r.siteUrl = some "") → modifyFeeds cfg r content = content) ∧
    (((jsEndsWith r.file "feed.xml" && cfg.enableXmlFeed) ||
      (jsEndsWith r.file "feed.json" && cfg.enableJsonFeed) ||
      (jsEndsWith r.file "sitemap.xml" && cfg.enableSitemap)) = false →
      modifyFeeds cfg r content = content) := by
  constructor
  · rintro (h | h) <;> (unfold modifyFeeds; rw [h]; simp)
  · intro h
    unfold modifyFeeds
    rw [h]
    simp

theorem c6_feed_gates_witness :
    modifyFeeds cfgXml ⟨"deploy", "page.html", some "https://site.example"⟩ "body" = "body" :=
  (c6_feed_gates cfgXml ⟨"deploy", "page.html", some "https://site.example"⟩ "body").2 (by decide)

/-- C7: a URL token beginning with neither `http` nor `/` is returned
unchanged by the URL replacer under every configuration; in particular the
`mailto:` and `data:` examples are never rewritten. -/
theorem c7_leading_skip :
    (∀ (cfg : Config) (url : List Char),
      "http".data.isPrefixOf url = false → "/".data.isPrefixOf url = false →
      replaceDomainAndPreserveProtocol cfg url = url) ∧
    (∀ cfg : Config,
      replaceDomainAndPreserveProtocol cfg "mailto:foo@bar.com".data =
        "mailto:foo@bar.com".data) ∧
    (∀ cfg : Config,
      replaceDomainAndPreserveProtocol cfg "data:image/png;base64,iVBORw0KGgo=".data =
        "data:image/png;base64,iVBORw0KGgo=".data) := by
  refine ⟨rd_skip_leading, fun cfg => ?_, fun cfg => ?_⟩ <;>
    exact rd_skip_leading cfg _ (by decide) (by decide)

theorem c7_leading_skip_witness :
    replaceDomainAndPreserveProtocol cfgImages "#anchor".data = "#anchor".data :=
  c7_leading_skip.1 cfgImages "#anchor".data (by decide) (by decide)

/-- C8 (counterexample): the mode `staging` is neither `deploy` nor a
preview mode, yet the HTML rewriter rewrites — the code treats every
non-preview mode as deployment, contradicting the claim that only `deploy`
triggers rewriting. -/
theorem c8_counterexample :
    rStaging.context ≠ "deploy" ∧
    modifyHtml cfgImages rStaging "<img src=\"/media/a.jpg\">" ≠
      "<img src=\"/media/a.jpg\">" := by
  exact ⟨by decide, by decide⟩

/-- C8 (amended): the rewriters return the input unchanged in the
`preview` and `instant-preview` modes; every other mode value (not only
`deploy`) is treated as deployment and may trigger rewriting. -/
theorem c8_preview_identity_amended (cfg : Config) (r : Renderer) (x : String)
    (h : r.context = "preview" ∨ r.context = "instant-preview") :
    modifyHtml cfg r x = x ∧ modifyFeeds cfg r x = x := by
  rcases h with h | h <;>
    exact ⟨by unfold modifyHtml; rw [h]; simp, by unfold modifyFeeds; rw [h]; simp⟩

theorem c8_preview_identity_amended_witness :
    modifyHtml cfgImages ⟨"preview", "index.html", some "https://s"⟩ "<p>y</p>" = "<p>y</p>" ∧
    modifyFeeds cfgImages ⟨"preview", "index.html", some "https://s"⟩ "<p>y</p>" = "<p>y</p>" :=
  c8_preview_identity_amended cfgImages ⟨"preview", "index.html", some "https://s"⟩ "<p>y</p>"
    (Or.inl rfl)

/-- C10 (counterexample): `https://feed.json` (with the JSON-feed pattern
enabled) passes the leading-character test and the pattern test and has no
path component after its `scheme://host` prefix, yet the rewriter does not
return it unchanged: the unanchored path regex re-finds the `//` after the
scheme and produces `https://cdn.example.com//feed.json`. -/
theorem c10_counterexample :
    "http".data.isPrefixOf "https://feed.json".data = true ∧
    assetUrlTest cfgJsonPat "https://feed.json".data = true ∧
    hasSlashThenChar (stripSchemeHostSpec "https://feed.json".data) = false ∧
    replaceDomainAndPreserveProtocol cfgJsonPat "https://feed.json".data =
      "https://cdn.example.com//feed.json".data ∧
    replaceDomainAndPreserveProtocol cfgJsonPat "https://feed.json".data ≠
      "https://feed.json".data := by
  exact ⟨by decide, by decide, by decide, by decide, by decide⟩

/-- C10 (amended): a candidate URL that passes the leading-character test
and the pattern test is returned unchanged when it contains no `/` followed
by a (non-line-terminator) character anywhere — the condition under which
the source's path regex finds no match at all. -/
theorem c10_no_path_amended (cfg : Config) (url : List Char)
    (_h1 : "http".data.isPrefixOf url = true ∨ "/".data.isPrefixOf url = true)
    (_h2 : assetUrlTest cfg url = true)
    (h3 : hasPathSlash url = false) :
    replaceDomainAndPreserveProtocol cfg url = url := by
  unfold replaceDomainAndPreserveProtocol
  rw [jsPathMatch_none h3]
  split
  · rfl
  · rfl

theorem c10_no_path_amended_witness :
    replaceDomainAndPreserveProtocol cfgJsonPat "httpfeed.json".data = "httpfeed.json".data :=
  c10_no_path_amended cfgJsonPat "httpfeed.json".data (Or.inl (by decide)) (by decide) (by decide)

theorem applyDollar_no_dollar (pre m post repl : List Char)
    (h : ∀ c ∈ repl, c ≠ '$') :
    applyDollar pre m post repl = repl := by
  induction repl with
  | nil => rfl
  | cons c rest ih =>
    unfold applyDollar
    rw [if_neg (h c (List.mem_cons_self c rest))]
    rw [ih (fun d hd => h d (List.mem_cons_of_mem c hd))]

theorem jsReplaceGlobalGo_no_dollar (pat repl : List Char)
    (h : ∀ c ∈ repl, c ≠ '$') :
    ∀ (fuel : Nat) (pre cs : List Char),
      jsReplaceGlobalGo pat repl fuel pre cs = literalReplaceGo pat repl fuel cs := by
  intro fuel
  induction fuel with
  | zero => intro pre cs; rfl
  | succ n ih =>
    intro pre cs
    cases cs with
    | nil => rfl
    | cons c rest =>
      unfold jsReplaceGlobalGo literalReplaceGo
      by_cases hp : (pat.isPrefixOf (c :: rest) && !pat.isEmpty) = true
      · rw [if_pos hp, if_pos hp, applyDollar_no_dollar _ _ _ _ h, ih]
      · rw [if_neg hp, if_neg hp, ih]

/-- C5 (counterexample): with `cdnUrl = "$&"`, the source's string
replacement performs JS `$`-substitution, so the output is not the literal
replacement the claim describes. -/
theorem c5_counterexample :
    modifyFeeds cfgDollar rFeedHttp "http://s/media/" = "http://http://s/media//media/" ∧
    String.mk (literalReplaceAll ("http://s/media/".data) ("http://$&/media/".data)
      "http://s/media/".data) = "http://$&/media/" ∧
    modifyFeeds cfgDollar rFeedHttp "http://s/media/" ≠
      String.mk (literalReplaceAll ("http://s/media/".data) ("http://$&/media/".data)
        "http://s/media/".data) := by
  exact ⟨by decide, by decide, by decide⟩

/-- C5 (amended): when the feed rewriter rewrites (deploy mode, CDN URL
set, site URL set, applicable file with its toggle on) and the cleaned CDN
domain contains no `$` character, the output equals the input with every
literal occurrence of `<site-url-minus-one-trailing-slash>/media/` replaced
by `P ++ D ++ "/media/"`, where `P` is `https://` iff the normalised site
URL begins with `https://` (else `http://`) and `D` is the CDN URL with a
leading scheme and one trailing slash stripped; nothing else changes. -/
theorem c5_feed_replace_amended (cfg : Config) (r : Renderer) (content : String)
    (u : String)
    (hSite : r.siteUrl = some u) (hU : u ≠ "")
    (hCdn : cfg.cdnUrl ≠ "")
    (hM1 : r.context ≠ "preview") (hM2 : r.context ≠ "instant-preview")
    (hFile : ((jsEndsWith r.file "feed.xml" && cfg.enableXmlFeed) ||
      (jsEndsWith r.file "feed.json" && cfg.enableJsonFeed) ||
      (jsEndsWith r.file "sitemap.xml" && cfg.enableSitemap)) = true)
    (hDollar : ∀ c ∈ cleanCdnDomain cfg.cdnUrl, c ≠ '$') :
    modifyFeeds cfg r content = String.mk (literalReplaceAll
      (stripTrailingSlash u.data ++ "/media/".data)
      ((if "https://".data.isPrefixOf (stripTrailingSlash u.data) then "https://".data
        else "http://".data) ++ cleanCdnDomain cfg.cdnUrl ++ "/media/".data)
      content.data) := by
  have h1 : (r.context != "preview") = true := bne_iff_ne.mpr hM1
  have h2 : (r.context != "instant-preview") = true := bne_iff_ne.mpr hM2
  have h3 : (cfg.cdnUrl == "") = false := beq_eq_false_iff_ne.mpr hCdn
  have h4 : (u != "") = true := bne_iff_ne.mpr hU
  have hrepl : ∀ c ∈ ((if "https://".data.isPrefixOf (stripTrailingSlash u.data)
      then "https://".data else "http://".data) ++
      cleanCdnDomain cfg.cdnUrl ++ "/media/".data), c ≠ '$' := by
    intro c hc
    rw [List.mem_append, List.mem_append] at hc
    rcases hc with (hc | hc) | hc
    · split at hc
      · have hh : ∀ x ∈ "https://".data, x ≠ '$' := by decide
        exact hh c hc
      · have hh : ∀ x ∈ "http://".data, x ≠ '$' := by decide
        exact hh c hc
    · exact hDollar c hc
    · have hh : ∀ x ∈ "/media/".data, x ≠ '$' := by decide
      exact hh c hc
  unfold modifyFeeds jsReplaceGlobal literalReplaceAll
  rw [hSite]
  simp only [h1, h2, h3, h4, hFile, Option.getD_some, Bool.and_self, Bool.not_true,
    Bool.or_false, Bool.false_or, Bool.or_self, if_false, Bool.not_false]
  exact congrArg String.mk (jsReplaceGlobalGo_no_dollar _ _ hrepl _ _ _)

theorem c5_feed_replace_amended_witness :
    modifyFeeds cfgXml rFeed "https://site.example/media/pic.png" =
      String.mk (literalReplaceAll
        (stripTrailingSlash "https://site.example".data ++ "/media/".data)
        ((if "https://".data.isPrefixOf (stripTrailingSlash "https://site.example".data)
          then "https://".data else "http://".data) ++
          cleanCdnDomain cfgXml.cdnUrl ++ "/media/".data)
        "https://site.example/media/pic.png".data) :=
  c5_feed_replace_amended cfgXml rFeed "https://site.example/media/pic.png"
    "https://site.example" rfl (by decide) (by decide) (by decide) (by decide)
    (by decide) (by decide)

theorem dropWhile_head_not (p : Char → Bool) (l : List Char) (c : Char) (rest : List Char)
    (h : l.dropWhile p = c :: rest) : p c = false := by
  induction l with
  | nil => simp at h
  | cons a as ih =>
    rw [List.dropWhile_cons] at h
    split at h
    · exact ih h
    · rename_i hneg
      cases h
      simpa using hneg

theorem dropWhile_decomp (p : Char → Bool) (l : List Char) :
    ∃ t, l = t ++ l.dropWhile p ∧ ∀ c ∈ t, p c = true := by
  induction l with
  | nil => exact ⟨[], rfl, by simp⟩
  | cons c rest ih =>
    by_cases hc : p c = true
    · obtain ⟨t, ht, hall⟩ := ih
      refine ⟨c :: t, ?_, ?_⟩
      · rw [List.dropWhile_cons_of_pos hc, List.cons_append]
        exact congrArg (c :: ·) ht
      · intro d hd
        rcases List.mem_cons.mp hd with h | h
        · rw [h]; exact hc
        · exact hall d h
    · refine ⟨[], ?_, by simp⟩
      rw [List.dropWhile_cons_of_neg hc, List.nil_append]

theorem wsWordsAux_all_ws (w : List Char) (hw : ∀ c ∈ w, isJsWs c = true) (acc : List Char) :
    wsWordsAux acc w = if acc.isEmpty then [] else [acc.reverse] := by
  induction w generalizing acc with
  | nil => rfl
  | cons c rest ih =>
    have hc : isJsWs c = true := hw c (List.mem_cons_self c rest)
    have hrest : ∀ d ∈ rest, isJsWs d = true := fun d hd => hw d (List.mem_cons_of_mem c hd)
    unfold wsWordsAux
    rw [if_pos hc]
    by_cases ha : acc.isEmpty = true
    · rw [if_pos ha, if_pos ha, ih hrest]
      rfl
    · rw [if_neg ha, if_neg ha, ih hrest]
      rfl

theorem wsWordsAux_append_ws (w : List Char) (hw : ∀ c ∈ w, isJsWs c = true)
    (xs acc : List Char) :
    wsWordsAux acc (xs ++ w) = wsWordsAux acc xs := by
  induction xs generalizing acc with
  | nil =>
    rw [List.nil_append, wsWordsAux_all_ws w hw acc]
    rfl
  | cons x rest ih =>
    rw [List.cons_append]
    unfold wsWordsAux
    by_cases hx : isJsWs x = true
    · rw [if_pos hx, if_pos hx]
      by_cases ha : acc.isEmpty = true
      · rw [if_pos ha, if_pos ha, ih]
      · rw [if_neg ha, if_neg ha, ih]
    · rw [if_neg hx, if_neg hx, ih]

theorem wsWordsAux_ws_lead (t : List Char) (ht : ∀ c ∈ t, isJsWs c = true)
    (xs : List Char) :
    wsWordsAux [] (t ++ xs) = wsWordsAux [] xs := by
  induction t with
  | nil => rfl
  | cons c rest ih =>
    have step : wsWordsAux [] ((c :: rest) ++ xs) =
        if isJsWs c then wsWordsAux [] (rest ++ xs) else wsWordsAux [c] (rest ++ xs) := by
      rw [List.cons_append]
      rfl
    rw [step, if_pos (ht c (List.mem_cons_self c rest))]
    exact ih (fun d hd => ht d (List.mem_cons_of_mem c hd))

theorem wsWords_jsTrim (cs : List Char) : wsWords (jsTrim cs) = wsWords cs := by
  obtain ⟨t0, ht0, hall0⟩ := dropWhile_decomp isJsWs cs
  obtain ⟨t1, ht1, hall1⟩ := dropWhile_decomp isJsWs (cs.dropWhile isJsWs).reverse
  have hD : cs.dropWhile isJsWs = jsTrim cs ++ t1.reverse := by
    have h2 := congrArg List.reverse ht1
    rw [List.reverse_reverse, List.reverse_append] at h2
    exact h2
  have hall1r : ∀ c ∈ t1.reverse, isJsWs c = true := by
    intro c hc
    exact hall1 c (List.mem_reverse.mp hc)
  unfold wsWords
  calc wsWordsAux [] (jsTrim cs)
      = wsWordsAux [] (jsTrim cs ++ t1.reverse) := (wsWordsAux_append_ws _ hall1r _ _).symm
    _ = wsWordsAux [] (cs.dropWhile isJsWs) := by rw [← hD]
    _ = wsWordsAux [] (t0 ++ cs.dropWhile isJsWs) := (wsWordsAux_ws_lead t0 hall0 _).symm
    _ = wsWordsAux [] cs := by rw [← ht0]

theorem jsSplitWs_of_trimmed (cs : List Char) (h : jsTrim cs ≠ []) :
    jsSplitWs (jsTrim cs) = wsWords (jsTrim cs) := by
  obtain ⟨t1, ht1, hall1⟩ := dropWhile_decomp isJsWs (cs.dropWhile isJsWs).reverse
  have hD : cs.dropWhile isJsWs = jsTrim cs ++ t1.reverse := by
    have h2 := congrArg List.reverse ht1
    rw [List.reverse_reverse, List.reverse_append] at h2
    exact h2
  have hrev : (jsTrim cs).reverse = (cs.dropWhile isJsWs).reverse.dropWhile isJsWs := by
    unfold jsTrim
    rw [List.reverse_reverse]
  cases hc : jsTrim cs with
  | nil => exact absurd hc h
  | cons c r =>
    have hhead : isJsWs c = false := by
      apply dropWhile_head_not isJsWs cs c (r ++ t1.reverse)
      rw [hD, hc, List.cons_append]
    have hrne : (c :: r).reverse ≠ [] := by simp
    cases hrr : (c :: r).reverse with
    | nil => exact absurd hrr hrne
    | cons d ds =>
      have hd : isJsWs d = false := by
        apply dropWhile_head_not isJsWs (cs.dropWhile isJsWs).reverse d ds
        rw [← hrev, hc, hrr]
      simp [jsSplitWs, hrr, hhead, hd]

theorem intercalate_single (sep x : List Char) : List.intercalate sep [x] = x := by
  simp [List.intercalate]

theorem rd_nil (cfg : Config) : replaceDomainAndPreserveProtocol cfg [] = [] :=
  rd_skip_leading cfg [] (by decide) (by decide)

theorem srcsetEntry_eq (cfg : Config) (part : List Char) :
    srcsetEntry cfg part = srcsetSpecEntry cfg part := by
  simp only [srcsetEntry, srcsetSpecEntry]
  by_cases h : jsTrim part = []
  · have hw : wsWords part = [] := by
      rw [← wsWords_jsTrim part, h]
      rfl
    rw [h, hw]
    show List.intercalate [' '] [replaceDomainAndPreserveProtocol cfg []] =
      replaceDomainAndPreserveProtocol cfg []
    exact intercalate_single _ _
  · rw [jsSplitWs_of_trimmed part h, wsWords_jsTrim part]
    cases hw : wsWords part with
    | nil =>
      show ([] : List Char) = replaceDomainAndPreserveProtocol cfg []
      exact (rd_nil cfg).symm
    | cons u ds => rfl

/-- C4: the `srcset` processing of the HTML rewriter coincides, for every
configuration and every attribute value, with the spec's description:
split on commas, split each entry into a leading URL token and trailing
descriptor tokens, rewrite only the URL token, keep every descriptor token
unchanged, rejoin descriptors with a single space and entries with `", "`. -/
theorem c4_srcset_refinement (cfg : Config) (value : List Char) :
    srcsetRewrite cfg value = srcsetSpecRewrite cfg value := by
  unfold srcsetRewrite srcsetSpecRewrite
  have he : srcsetEntry cfg = srcsetSpecEntry cfg := funext (srcsetEntry_eq cfg)
  rw [he]
